import Mathlib

/-!
Verification development for the Bolt compiler front end prototype.

The definitions below are a shallow embedding of the C++ sources:
`include/bolt/CST.hpp`, `src/Parser.cc`, `src/IPRGraph.cc`, `src/main.cc`.
Machine strings (`ByteString`, `std::string`) are modelled as `List Char`;
pointers to CST nodes become inductive values; the mutable token stream of
the parser becomes explicit state passing over a `List Token` (the scanner
produces `EndOfFile` tokens forever after exhaustion, which the embedding
captures by peeking a default `EndOfFile` token on an empty list); a C++
`throw` of a diagnostic becomes an error result that carries the stream
state at the moment of the throw.
-/

namespace Bolt

/-- Source location, 1-based line and column, `(0,0)` the empty sentinel
(embeds `TextLoc` from CST.hpp). -/
structure TextLoc where
  line : Nat
  column : Nat
deriving DecidableEq, Repr

/-- One step of `TextLoc::advance` from CST.hpp: a newline character bumps
the line and resets the column to 1, any other character bumps the column. -/
def TextLoc.step (l : TextLoc) (c : Char) : TextLoc :=
  if c = '\n' then { line := l.line + 1, column := 1 }
  else { l with column := l.column + 1 }

/-- Embeds `TextLoc::advance` (CST.hpp lines 38-47): advance the location
over each character of the text in order. -/
def TextLoc.advance (l : TextLoc) (text : List Char) : TextLoc :=
  text.foldl TextLoc.step l

/-- Embeds `TextLoc::operator+` (CST.hpp lines 49-53): advance a copy of the
location over the text. -/
def TextLoc.add (l : TextLoc) (text : List Char) : TextLoc :=
  TextLoc.advance l text

/-- Token kinds, the token section of the `NodeKind` enumeration in CST.hpp
(CST node kinds are modelled as separate inductive types below). -/
inductive NodeKind where
  | Equals
  | Colon
  | Comma
  | Dot
  | DotDot
  | Tilde
  | LParen
  | RParen
  | LBracket
  | RBracket
  | LBrace
  | RBrace
  | RArrow
  | RArrowAlt
  | LetKeyword
  | MutKeyword
  | PubKeyword
  | TypeKeyword
  | ReturnKeyword
  | ModKeyword
  | StructKeyword
  | EnumKeyword
  | ClassKeyword
  | InstanceKeyword
  | ElifKeyword
  | IfKeyword
  | ElseKeyword
  | MatchKeyword
  | Invalid
  | EndOfFile
  | BlockStart
  | BlockEnd
  | LineFoldEnd
  | CustomOperator
  | Assignment
  | Identifier
  | IdentifierAlt
  | StringLiteral
  | IntegerLiteral
deriving DecidableEq, Repr

/-- A token: kind, rendered text and start location.  CST.hpp stores the
kind and start location on `Token` and the payload per subclass; the
rendered text (the virtual `getText()`, whose bodies live in the CST
implementation file that is not part of the sources) is modelled as a
stored field holding whatever `getText()` returns. -/
structure Token where
  kind : NodeKind
  text : List Char
  startLoc : TextLoc
deriving DecidableEq, Repr

/-- Modelled from the spec: `Token::getEndLoc` is declared in CST.hpp but
defined in the missing CST implementation file; the spec says the end
location is derived from start plus rendered text width, newlines inside
literals respected. -/
def Token.getEndLoc (t : Token) : TextLoc :=
  t.startLoc.add t.text

/-- Embeds `Token::getRange` (CST.hpp lines 334-336). -/
def Token.getRange (t : Token) : TextLoc × TextLoc :=
  (t.startLoc, t.getEndLoc)

/-- The token the exhausted stream keeps returning: the scanner produces
`EndOfFile` tokens forever after exhaustion. -/
def eofToken : Token :=
  { kind := .EndOfFile, text := [], startLoc := { line := 0, column := 0 } }

/-- The parser's token stream, a list plus the convention that reading past
the end yields `eofToken`. -/
abbrev Tokens := List Token

/-- Embeds `Tokens.peek()`: look at the next token without consuming it. -/
def peekT (ts : Tokens) : Token :=
  ts.headD eofToken

/-- Embeds `Parser::peekFirstTokenAfterModifiers` (Parser.cc lines 12-24):
peek past any leading `pub` / `mut` keywords. -/
def peekAfterModifiers (ts : Tokens) : Token :=
  match ts with
  | [] => eofToken
  | t :: rest =>
    match t.kind with
    | .PubKeyword => peekAfterModifiers rest
    | .MutKeyword => peekAfterModifiers rest
    | _ => t

/-- Embeds `UnexpectedTokenDiagnostic(Token, expected kinds)` as thrown by
Parser.cc. -/
structure UnexpectedTokenDiagnostic where
  actual : Token
  expected : List NodeKind
deriving DecidableEq, Repr

/-- Result of a parsing function: either a value with the rest of the
stream, or a thrown diagnostic together with the stream state at the
moment of the throw (the C++ stream is a mutable object, so the tokens
consumed before the throw stay consumed). -/
inductive PResult (α : Type) where
  | ok : α → Tokens → PResult α
  | err : UnexpectedTokenDiagnostic → Tokens → PResult α
deriving DecidableEq, Repr

/-- Embeds the `BOLT_EXPECT_TOKEN` macro (Parser.cc lines 26-32): consume
one token and throw if its kind differs from the expected one. -/
def expectTok (k : NodeKind) (ts : Tokens) : PResult Unit :=
  let t := peekT ts
  if t.kind = k then .ok () ts.tail
  else .err { actual := t, expected := [k] } ts.tail

/-- A pattern (Parser.cc only builds `BindPattern` over an identifier). -/
inductive Pattern where
  | bind : Token → Pattern
deriving DecidableEq, Repr

/-- Embeds `QualifiedName(ModulePath, Name)` as built by Parser.cc. -/
structure QualifiedName where
  modulePath : List Token
  name : Token
deriving DecidableEq, Repr

/-- A type expression (Parser.cc only builds `ReferenceTypeExpression`). -/
inductive TypeExpression where
  | ref : QualifiedName → TypeExpression
deriving DecidableEq, Repr

/-- An expression (Parser.cc builds `ReferenceExpression` over an
identifier and `ConstantExpression` over a literal token). -/
inductive Expression where
  | ref : Token → Expression
  | const : Token → Expression
deriving DecidableEq, Repr

/-- Embeds `TypeAssert(Colon, TypeExpression)`. -/
structure TypeAssert where
  colon : Token
  typeExpr : TypeExpression
deriving DecidableEq, Repr

/-- Embeds `Param(Pattern, TypeAssert*)`; Parser.cc always passes a null
type assert. -/
structure Param where
  pattern : Pattern
  typeAssert : Option TypeAssert
deriving DecidableEq, Repr

/-- Embeds `Parser::parsePattern` (Parser.cc lines 34-43): an identifier
becomes a `BindPattern`; anything else throws without consuming (only a
peek has happened). -/
def parsePattern (ts : Tokens) : PResult Pattern :=
  let t0 := peekT ts
  if t0.kind = .Identifier then .ok (.bind t0) ts.tail
  else .err { actual := t0, expected := [.Identifier] } ts

/-- The loop of `Parser::parseQualifiedName` (Parser.cc lines 51-62),
entered with the most recent name token already consumed.  Note the source
breaks out of the loop when the peeked token IS a `Dot`; otherwise it
consumes that token, pushes the previous name onto the module path and
reads the next name. -/
def parseQualifiedNameLoop (modulePath : List Token) (name : Token)
    (ts : Tokens) : PResult QualifiedName :=
  if (peekT ts).kind = .Dot then
    .ok { modulePath := modulePath, name := name } ts
  else if h : (peekT ts.tail).kind = .Identifier then
    parseQualifiedNameLoop (modulePath ++ [name]) (peekT ts.tail) ts.tail.tail
  else .err { actual := peekT ts.tail, expected := [.Identifier] } ts.tail.tail
termination_by ts.length
decreasing_by
  cases ts with
  | nil => simp [peekT, eofToken] at h
  | cons a rest =>
    cases rest with
    | nil => simp [peekT, eofToken] at h
    | cons b rest2 =>
      simp only [List.tail_cons, List.length_cons]
      omega

/-- Embeds `Parser::parseQualifiedName` (Parser.cc lines 45-64). -/
def parseQualifiedName (ts : Tokens) : PResult QualifiedName :=
  let name := peekT ts
  let ts1 := ts.tail
  if name.kind = .Identifier then parseQualifiedNameLoop [] name ts1
  else .err { actual := name, expected := [.Identifier] } ts1

/-- Embeds `Parser::parseTypeExpression` (Parser.cc lines 66-74). -/
def parseTypeExpression (ts : Tokens) : PResult TypeExpression :=
  let t0 := peekT ts
  if t0.kind = .Identifier then
    match parseQualifiedName ts with
    | .ok qn rest => .ok (.ref qn) rest
    | .err d rest => .err d rest
  else .err { actual := t0, expected := [.Identifier] } ts

/-- Embeds `Parser::parseExpression` (Parser.cc lines 76-89): an identifier
becomes a `ReferenceExpression`, an integer or string literal a
`ConstantExpression`; anything else throws (with expected kinds
`Identifier` and `IntegerLiteral`, as written in the source) without
consuming. -/
def parseExpression (ts : Tokens) : PResult Expression :=
  let t0 := peekT ts
  match t0.kind with
  | .Identifier => .ok (.ref t0) ts.tail
  | .IntegerLiteral => .ok (.const t0) ts.tail
  | .StringLiteral => .ok (.const t0) ts.tail
  | _ => .err { actual := t0, expected := [.Identifier, .IntegerLiteral] } ts

/-- Embeds `ExpressionStatement`. -/
structure ExpressionStatement where
  expr : Expression
deriving DecidableEq, Repr

/-- Embeds `Parser::parseExpressionStatement` (Parser.cc lines 91-95). -/
def parseExpressionStatement (ts : Tokens) : PResult ExpressionStatement :=
  match parseExpression ts with
  | .ok e rest =>
    match expectTok .LineFoldEnd rest with
    | .ok _ rest2 => .ok { expr := e } rest2
    | .err d rest2 => .err d rest2
  | .err d rest => .err d rest

mutual

/-- An element of a let block body or of a source file: Parser.cc parses a
let declaration when the first token after modifiers is `let`, otherwise an
expression statement. -/
inductive Element where
  | letD : LetDeclaration → Element
  | exprStmt : ExpressionStatement → Element

/-- Embeds `LetBody`: either `LetBlockBody(BlockStart, Elements)` or
`LetExprBody(Equals, Expression)`. -/
inductive LetBody where
  | blockBody : Token → List Element → LetBody
  | exprBody : Token → Expression → LetBody

/-- Embeds `LetDeclaration(Pub, Let, Mut, Patt, Params, TA, Body)` as built
by Parser.cc; the `Pub` and `Mut` pointers are left uninitialized by the
source when the keyword is absent, modelled here as `none`. -/
inductive LetDeclaration where
  | mk : Option Token → Token → Option Token → Pattern → List Param →
      Option TypeAssert → Option LetBody → LetDeclaration

end

/-- Embeds the parameter loop of `Parser::parseLetDeclaration` (Parser.cc
lines 119-132): peel patterns into parameters until the peeked token is a
`LineFoldEnd`, `BlockStart`, `Equals` or `Colon`. -/
def parseParams (ts : Tokens) : PResult (List Param) :=
  match (peekT ts).kind with
  | .LineFoldEnd => .ok [] ts
  | .BlockStart => .ok [] ts
  | .Equals => .ok [] ts
  | .Colon => .ok [] ts
  | _ =>
    match h : parsePattern ts with
    | .ok p rest =>
      match parseParams rest with
      | .ok ps rest2 => .ok ({ pattern := p, typeAssert := none } :: ps) rest2
      | .err d rest2 => .err d rest2
    | .err d rest => .err d rest
termination_by ts.length
decreasing_by
  simp only [parsePattern] at h
  split at h
  · rename_i hid
    cases ts with
    | nil => simp [peekT, eofToken] at hid
    | cons a rest3 =>
      injection h with h1 h2
      rw [← h2]
      simp only [List.tail_cons, List.length_cons]
      omega
  · exact absurd h (by simp)

mutual

/-- Embeds `Parser::parseLetDeclaration` (Parser.cc lines 97-190), with a
fuel argument to bound the recursion through nested block bodies (`none`
means the fuel ran out, which never happens on the runs the theorems below
describe). -/
def parseLetDeclarationF : Nat → Tokens → Option (PResult LetDeclaration)
  | 0, _ => none
  | fuel + 1, ts =>
    let tA := peekT ts
    let pub : Option Token := if tA.kind = .PubKeyword then some tA else none
    let ts1 := if tA.kind = .PubKeyword then ts.tail else ts
    let t0 := peekT ts1
    let ts2 := ts1.tail
    if t0.kind = .LetKeyword then
      let t1 := peekT ts2
      let mutK : Option Token := if t1.kind = .MutKeyword then some t1 else none
      let ts3 := if t1.kind = .MutKeyword then ts2.tail else ts2
      match parsePattern ts3 with
      | .err d rest => some (.err d rest)
      | .ok patt ts4 =>
        match parseParams ts4 with
        | .err d rest => some (.err d rest)
        | .ok params ts5 =>
          let t2 := peekT ts5
          match
            (if t2.kind = .Colon then
              match parseTypeExpression ts5.tail with
              | .err d rest => .err d rest
              | .ok te ts7 => .ok (some { colon := t2, typeExpr := te }) ts7
            else .ok none ts5 : PResult (Option TypeAssert))
          with
          | .err d rest => some (.err d rest)
          | .ok ta ts7 =>
            let t2b := peekT ts7
            match t2b.kind with
            | .BlockStart =>
              match parseBlockElementsF fuel ts7.tail with
              | none => none
              | some (.err d rest) => some (.err d rest)
              | some (.ok els ts9) =>
                match expectTok .LineFoldEnd ts9.tail with
                | .err d rest => some (.err d rest)
                | .ok _ ts10 =>
                  some (.ok (.mk pub t0 mutK patt params ta
                    (some (.blockBody t2b els))) ts10)
            | .Equals =>
              match parseExpression ts7.tail with
              | .err d rest => some (.err d rest)
              | .ok e ts9 =>
                match expectTok .LineFoldEnd ts9 with
                | .err d rest => some (.err d rest)
                | .ok _ ts10 =>
                  some (.ok (.mk pub t0 mutK patt params ta
                    (some (.exprBody t2b e))) ts10)
            | .LineFoldEnd =>
              match expectTok .LineFoldEnd ts7 with
              | .err d rest => some (.err d rest)
              | .ok _ ts10 =>
                some (.ok (.mk pub t0 mutK patt params ta none) ts10)
            | _ =>
              some (.err
                { actual := t2b
                  expected := [.BlockStart, .LineFoldEnd, .Equals] ++
                    (if ta.isNone then [.Colon, .Identifier] else []) } ts7)
    else some (.err { actual := t0, expected := [.LetKeyword] } ts2)

/-- Embeds `Parser::parseLetBodyElement` (Parser.cc lines 192-200). -/
def parseLetBodyElementF : Nat → Tokens → Option (PResult Element)
  | 0, _ => none
  | fuel + 1, ts =>
    if (peekAfterModifiers ts).kind = .LetKeyword then
      match parseLetDeclarationF fuel ts with
      | none => none
      | some (.ok d rest) => some (.ok (.letD d) rest)
      | some (.err d rest) => some (.err d rest)
    else
      match parseExpressionStatement ts with
      | .ok s rest => some (.ok (.exprStmt s) rest)
      | .err d rest => some (.err d rest)

/-- Embeds the block body loop of `Parser::parseLetDeclaration` (Parser.cc
lines 146-159): collect let body elements until the peeked token is a
`BlockEnd` (which the caller then consumes). -/
def parseBlockElementsF : Nat → Tokens → Option (PResult (List Element))
  | 0, _ => none
  | fuel + 1, ts =>
    if (peekT ts).kind = .BlockEnd then some (.ok [] ts)
    else
      match parseLetBodyElementF fuel ts with
      | none => none
      | some (.err d rest) => some (.err d rest)
      | some (.ok e rest) =>
        match parseBlockElementsF fuel rest with
        | none => none
        | some (.err d rest2) => some (.err d rest2)
        | some (.ok es rest2) => some (.ok (e :: es) rest2)

end

/-- Embeds `SourceFile(Elements)` as built by `Parser::parseSourceFile`. -/
structure SourceFile where
  elements : List Element

/-- Embeds `Parser::parseSourceElement` (Parser.cc lines 202-210), which
has the same body as `parseLetBodyElement`. -/
def parseSourceElementF (fuel : Nat) (ts : Tokens) : Option (PResult Element) :=
  match fuel with
  | 0 => none
  | fuel + 1 =>
    if (peekAfterModifiers ts).kind = .LetKeyword then
      match parseLetDeclarationF fuel ts with
      | none => none
      | some (.ok d rest) => some (.ok (.letD d) rest)
      | some (.err d rest) => some (.err d rest)
    else
      match parseExpressionStatement ts with
      | .ok s rest => some (.ok (.exprStmt s) rest)
      | .err d rest => some (.err d rest)

/-- Embeds the loop of `Parser::parseSourceFile` (Parser.cc lines 214-220):
collect source elements until the peeked token is an `EndOfFile`. -/
def parseSourceElementsF : Nat → Tokens → Option (PResult (List Element))
  | 0, _ => none
  | fuel + 1, ts =>
    if (peekT ts).kind = .EndOfFile then some (.ok [] ts)
    else
      match parseSourceElementF fuel ts with
      | none => none
      | some (.err d rest) => some (.err d rest)
      | some (.ok e rest) =>
        match parseSourceElementsF fuel rest with
        | none => none
        | some (.err d rest2) => some (.err d rest2)
        | some (.ok es rest2) => some (.ok (e :: es) rest2)

/-- Embeds `Parser::parseSourceFile` (Parser.cc lines 212-222). -/
def parseSourceFileF (fuel : Nat) (ts : Tokens) : Option (PResult SourceFile) :=
  match parseSourceElementsF fuel ts with
  | none => none
  | some (.err d rest) => some (.err d rest)
  | some (.ok els rest) => some (.ok { elements := els } rest)

/-- Embeds the first token of a parsed node (the accessor bodies live in
the missing CST implementation file; for the node shapes Parser.cc builds
the first token is the stored token itself). -/
def Pattern.getFirstToken : Pattern → Token
  | .bind t => t

/-- Embeds the last token of a parsed pattern. -/
def Pattern.getLastToken : Pattern → Token
  | .bind t => t

/-- Embeds the first token of a parsed expression. -/
def Expression.getFirstToken : Expression → Token
  | .ref t => t
  | .const t => t

/-- Embeds the last token of a parsed expression. -/
def Expression.getLastToken : Expression → Token
  | .ref t => t
  | .const t => t

/-- Modelled from the spec: `Node::getRange` is defined in the missing CST
implementation file; the spec states the range of a parsed node equals
`(firstToken.start, lastToken.end)`. -/
def Pattern.getRange (p : Pattern) : TextLoc × TextLoc :=
  (p.getFirstToken.startLoc, p.getLastToken.getEndLoc)

/-- Modelled from the spec: range of an expression node, as
`(firstToken.start, lastToken.end)`. -/
def Expression.getRange (e : Expression) : TextLoc × TextLoc :=
  (e.getFirstToken.startLoc, e.getLastToken.getEndLoc)

/-- Modelled from the spec: diagnostic severity (Diagnostics.hpp is not
among the sources; the spec speaks of error-severity diagnostics). -/
inductive Severity where
  | error
  | warning
deriving DecidableEq, Repr

/-- A diagnostic as the driver sees it: a severity and the primary node's
start position (`getNode()` may be null, hence the option). -/
structure MDiag where
  severity : Severity
  node : Option (Nat × Nat)
deriving DecidableEq, Repr

/-- Embeds the comparator `LT` of main.cc (lines 61-74): diagnostics with a
null node first, otherwise `L.line < R.line || L.column < R.column`,
exactly as written in the source (the column comparison is NOT guarded by
line equality). -/
def diagNodeLT (n1 n2 : Option (Nat × Nat)) : Bool :=
  match n1, n2 with
  | none, none => false
  | none, some _ => true
  | some _, none => false
  | some p1, some p2 => decide (p1.1 < p2.1) || decide (p1.2 < p2.2)

/-- Embeds `main` of main.cc (lines 33-82) as a pure function of the
argument count, the parse result and the diagnostics the checker collected;
the `std::sort` call (whose behavior is undefined for an invalid
comparator) is abstracted as a reordering parameter.  The returned pair is
(diagnostics handed to the console printer, process exit code). -/
def mainRun {α : Type} (sortImpl : List MDiag → List MDiag) (argc : Nat)
    (sf : Option α) (diags : List MDiag) : List MDiag × Nat :=
  if argc < 2 then ([], 1)
  else
    match sf with
    | none => ([], 1)
    | some _ => (sortImpl diags, 0)

/-- Modelled from the spec: one raw input line as the layout filter sees it
(the Punctuator source is not among the files): the column of its first
token and the raw token kinds on the line. -/
structure RawLine where
  column : Nat
  toks : List NodeKind
deriving DecidableEq, Repr

/-- Modelled from the spec (§4.D rule 2): a block is pending after a line
whose last token is a layout-introducing `.` or a block-opening `=`, or
that is an `if` / `elif` / `else` header. -/
def layoutPending (l : RawLine) : Bool :=
  (match l.toks.getLast? with
   | some .Dot => true
   | some .Equals => true
   | _ => false) ||
  (match l.toks.head? with
   | some .IfKeyword => true
   | some .ElifKeyword => true
   | some .ElseKeyword => true
   | _ => false)

/-- Modelled from the spec (§4.D rules 1 and 3): the layout filter.  The
state is the stack of pushed block columns (the expected block column is
the top of the stack, or 1 at top level), whether any line has been seen
yet (the very first line has no previous line fold to terminate), and
whether the previous line requested a block.  A line indented further than
the expected column opens a block when one is pending and otherwise
continues the current line fold; a line at the expected column terminates
the previous line fold with a `LineFoldEnd`; a line indented less pops
every deeper block with a `BlockEnd` each and then terminates the previous
line fold.  The end of input pops all blocks, terminates the last line
fold and emits `EndOfFile`. -/
def punctuateGo (stack : List Nat) (started pending : Bool) :
    List RawLine → List NodeKind
  | [] =>
    List.replicate stack.length .BlockEnd ++
      (if started then [.LineFoldEnd] else []) ++ [.EndOfFile]
  | l :: rest =>
    let top := stack.headD 1
    if top < l.column then
      if pending then
        .BlockStart :: (l.toks ++
          punctuateGo (l.column :: stack) true (layoutPending l) rest)
      else
        l.toks ++ punctuateGo stack true (layoutPending l) rest
    else if l.column = top then
      (if started then [.LineFoldEnd] else []) ++ l.toks ++
        punctuateGo stack true (layoutPending l) rest
    else
      let stack2 := stack.dropWhile (fun x => l.column < x)
      List.replicate (stack.length - stack2.length) .BlockEnd ++
        .LineFoldEnd :: (l.toks ++
          punctuateGo stack2 true (layoutPending l) rest)

/-- Modelled from the spec: the layout filter run from the initial state. -/
def punctuate (ls : List RawLine) : List NodeKind :=
  punctuateGo [] false false ls

/-- Number of line folds (logical lines) in the input, following the same
layout rule as the filter: a line indented beyond the expected block column
continues the current line fold (possibly opening a block), any other line
starts a new one; a fold is counted when it is terminated, the last one at
the end of input. -/
def lineFoldCount (stack : List Nat) (started pending : Bool) :
    List RawLine → Nat
  | [] => if started then 1 else 0
  | l :: rest =>
    let top := stack.headD 1
    if top < l.column then
      lineFoldCount (if pending then l.column :: stack else stack) true
        (layoutPending l) rest
    else if l.column = top then
      (if started then 1 else 0) + lineFoldCount stack true (layoutPending l) rest
    else
      1 + lineFoldCount (stack.dropWhile (fun x => l.column < x)) true
        (layoutPending l) rest

/-- A vertex of the dependency graph built by IPRGraph.cc: either a value
declaration or a reference expression (node pointers are modelled as
numeric identities). -/
inductive NodeRef where
  | decl : Nat → NodeRef
  | ref : Nat → NodeRef
deriving DecidableEq, Repr

mutual

/-- The CST shapes `IPRGraph::populate` traverses (IPRGraph.cc lines
12-92): source file, if statement (a list of parts, each a list of
elements), let declaration (with its numeric identity and optional body),
constant expression, call expression and reference expression (with its
numeric identity). -/
inductive BNode where
  | sourceFile : List BNode → BNode
  | ifStatement : List (List BNode) → BNode
  | letDecl : Nat → Option BLetBody → BNode
  | constantExpr : BNode
  | callExpr : BNode → List BNode → BNode
  | refExpr : Nat → BNode

/-- The two let body forms traversed by `IPRGraph::populate`. -/
inductive BLetBody where
  | blockBody : List BNode → BLetBody
  | exprBody : BNode → BLetBody

end

/-- Embeds `IPRGraph::populate` (IPRGraph.cc lines 12-92): walk the tree
carrying the innermost enclosing let declaration; at a reference
expression, add an edge from that declaration (when there is one) to the
reference, and an edge from the reference to the declaration the scope
lookup resolves it to.  `Scope::lookup` lives in the missing CST
implementation file and is abstracted as the total map `resolve` from
reference identities to declaration identities (the source asserts the
lookup never fails). -/
def populate (resolve : Nat → Nat) (x : BNode) (decl : Option Nat) :
    List (NodeRef × NodeRef) :=
  match x with
  | .sourceFile els =>
    els.attach.flatMap (fun e => populate resolve e.1 decl)
  | .ifStatement parts =>
    parts.attach.flatMap (fun p =>
      p.1.attach.flatMap (fun e => populate resolve e.1 decl))
  | .letDecl i body =>
    match body with
    | none => []
    | some (.blockBody els) =>
      els.attach.flatMap (fun e => populate resolve e.1 (some i))
    | some (.exprBody e) => populate resolve e (some i)
  | .constantExpr => []
  | .callExpr f args =>
    populate resolve f decl ++
      args.attach.flatMap (fun a => populate resolve a.1 decl)
  | .refExpr r =>
    (match decl with
     | some d => [(NodeRef.decl d, NodeRef.ref r)]
     | none => []) ++ [(NodeRef.ref r, NodeRef.decl (resolve r))]
termination_by sizeOf x
decreasing_by
  all_goals simp_wf
  · have := List.sizeOf_lt_of_mem e.2
    omega
  · have h1 := List.sizeOf_lt_of_mem e.2
    have h2 := List.sizeOf_lt_of_mem p.2
    omega
  · have := List.sizeOf_lt_of_mem e.2
    omega
  · omega
  · omega
  · have := List.sizeOf_lt_of_mem a.2
    omega

/-- The reference expressions of a tree together with the let declaration
whose body directly contains them (the innermost enclosing let declaration,
or the ambient context `decl` when no let encloses them): the containment
notion `IPRGraph::populate` attributes edges by. -/
def refsCtx (x : BNode) (decl : Option Nat) : List (Option Nat × Nat) :=
  match x with
  | .sourceFile els =>
    els.attach.flatMap (fun e => refsCtx e.1 decl)
  | .ifStatement parts =>
    parts.attach.flatMap (fun p =>
      p.1.attach.flatMap (fun e => refsCtx e.1 decl))
  | .letDecl i body =>
    match body with
    | none => []
    | some (.blockBody els) =>
      els.attach.flatMap (fun e => refsCtx e.1 (some i))
    | some (.exprBody e) => refsCtx e (some i)
  | .constantExpr => []
  | .callExpr f args =>
    refsCtx f decl ++ args.attach.flatMap (fun a => refsCtx a.1 decl)
  | .refExpr r => [(decl, r)]
termination_by sizeOf x
decreasing_by
  all_goals simp_wf
  · have := List.sizeOf_lt_of_mem e.2
    omega
  · have h1 := List.sizeOf_lt_of_mem e.2
    have h2 := List.sizeOf_lt_of_mem p.2
    omega
  · have := List.sizeOf_lt_of_mem e.2
    omega
  · omega
  · omega
  · have := List.sizeOf_lt_of_mem a.2
    omega

/-- The pair of edges a single reference occurrence contributes to the
graph. -/
def refEdges (resolve : Nat → Nat) (cr : Option Nat × Nat) :
    List (NodeRef × NodeRef) :=
  (match cr.1 with
   | some d => [(NodeRef.decl d, NodeRef.ref cr.2)]
   | none => []) ++ [(NodeRef.ref cr.2, NodeRef.decl (resolve cr.2))]

/-- The token kinds accepted at the expression entry point of Parser.cc. -/
def exprKindTok (t : Token) : Prop :=
  t.kind = .Identifier ∨ t.kind = .IntegerLiteral ∨ t.kind = .StringLiteral

/-- The expression node `Parser::parseExpression` builds for an accepted
token: a reference for an identifier, a constant for a literal. -/
def mkExprNode (t : Token) : Expression :=
  if t.kind = .Identifier then .ref t else .const t

/-- The three body shapes of a let declaration, used to parameterize the
let declaration theorem: no body, an `=` expression body, or an indented
block of expression statements (each a token plus its line fold end). -/
inductive LetBodySpec where
  | noBody
  | exprB (eqT exprT : Token)
  | blockB (bsT : Token) (stmts : List (Token × Token)) (beT : Token)

/-- The token stream of a let declaration body. -/
def LetBodySpec.render : LetBodySpec → List Token
  | .noBody => []
  | .exprB eqT exprT => [eqT, exprT]
  | .blockB bsT stmts beT =>
    bsT :: ((stmts.flatMap fun s => [s.1, s.2]) ++ [beT])

/-- The `LetBody` node the parser builds for a body shape. -/
def LetBodySpec.node : LetBodySpec → Option LetBody
  | .noBody => none
  | .exprB eqT exprT => some (.exprBody eqT (mkExprNode exprT))
  | .blockB bsT stmts _ =>
    some (.blockBody bsT
      (stmts.map fun s => .exprStmt { expr := mkExprNode s.1 }))

/-- Well-formedness of a body shape: the delimiter kinds are right and the
statements are accepted expressions each terminated by a line fold end. -/
def LetBodySpec.wf : LetBodySpec → Prop
  | .noBody => True
  | .exprB eqT exprT => eqT.kind = .Equals ∧ exprKindTok exprT
  | .blockB bsT stmts beT =>
    bsT.kind = .BlockStart ∧ beT.kind = .BlockEnd ∧
      ∀ s ∈ stmts, exprKindTok s.1 ∧ s.2.kind = .LineFoldEnd

/-- Fuel needed beyond the entry layer to parse a body shape. -/
def LetBodySpec.fuelNeed : LetBodySpec → Nat
  | .blockB _ stmts _ => stmts.length + 1
  | _ => 0

/- ------------------------------------------------------------------ -/
/- Theorems.                                                           -/
/- ------------------------------------------------------------------ -/

theorem advance_append (l : TextLoc) (s1 s2 : List Char) :
    TextLoc.advance l (s1 ++ s2) = TextLoc.advance (TextLoc.advance l s1) s2 := by
  simp [TextLoc.advance, List.foldl_append]

theorem advance_cons (l : TextLoc) (c : Char) (cs : List Char) :
    TextLoc.advance l (c :: cs) = TextLoc.advance (TextLoc.step l c) cs := rfl

theorem advance_line (l : TextLoc) (s : List Char) :
    (TextLoc.advance l s).line = l.line + s.count '\n' := by
  induction s generalizing l with
  | nil => simp [TextLoc.advance]
  | cons c cs ih =>
    rw [advance_cons, ih]
    by_cases h : c = '\n' <;>
      simp [TextLoc.step, h, List.count_cons] <;> omega

theorem advance_col_no_newline (l : TextLoc) (s : List Char)
    (h : '\n' ∉ s) : (TextLoc.advance l s).column = l.column + s.length := by
  induction s generalizing l with
  | nil => simp [TextLoc.advance]
  | cons c cs ih =>
    rw [advance_cons, ih (TextLoc.step l c)
      (fun hc => h (List.mem_cons_of_mem c hc))]
    have hc : c ≠ '\n' := fun hc => h (hc ▸ List.mem_cons_self c cs)
    simp [TextLoc.step, hc]
    omega

theorem advance_col_after_newline (l : TextLoc) (s1 s2 : List Char)
    (h : '\n' ∉ s2) :
    (TextLoc.advance l (s1 ++ '\n' :: s2)).column = s2.length + 1 := by
  have he : s1 ++ '\n' :: s2 = (s1 ++ ['\n']) ++ s2 := by simp
  rw [he, advance_append, advance_col_no_newline _ _ h]
  have h1 : (TextLoc.advance l (s1 ++ ['\n'])).column = 1 := by
    rw [advance_append]
    simp [TextLoc.advance, TextLoc.step]
  rw [h1]
  omega

/-- C10: advancing a text location over text is a monoid action: advancing
over a concatenation equals advancing over the two parts in order, and
advancing over the empty text is the identity (`TextLoc::advance` /
`TextLoc::operator+` of CST.hpp). -/
theorem textloc_add_monoid_action (l : TextLoc) (s1 s2 : List Char) :
    TextLoc.add (TextLoc.add l s1) s2 = TextLoc.add l (s1 ++ s2) ∧
    TextLoc.add l [] = l := by
  refine ⟨?_, rfl⟩
  rw [TextLoc.add, TextLoc.add, TextLoc.add, advance_append]

/-- C7: a token's range is the pair of its start location and the start
location advanced over its rendered text; the advance adds one line per
newline character, and the end column is the start column plus the text
length when the text has no newline, and the length of the segment after
the last newline plus one otherwise; the range of a parsed node is the
pair of its first token's start and its last token's end. -/
theorem token_and_node_ranges (t : Token) :
    t.getRange = (t.startLoc, t.startLoc.advance t.text) ∧
    t.getEndLoc.line = t.startLoc.line + t.text.count '\n' ∧
    ('\n' ∉ t.text →
      t.getEndLoc.column = t.startLoc.column + t.text.length) ∧
    (∀ s1 s2, t.text = s1 ++ '\n' :: s2 → '\n' ∉ s2 →
      t.getEndLoc.column = s2.length + 1) ∧
    (∀ p : Pattern,
      p.getRange = (p.getFirstToken.startLoc, p.getLastToken.getEndLoc)) ∧
    (∀ e : Expression,
      e.getRange = (e.getFirstToken.startLoc, e.getLastToken.getEndLoc)) := by
  refine ⟨rfl, advance_line _ _, advance_col_no_newline _ _, ?_, fun p => rfl,
    fun e => rfl⟩
  intro s1 s2 hs hn
  show (TextLoc.advance t.startLoc t.text).column = s2.length + 1
  rw [hs]
  exact advance_col_after_newline _ _ _ hn

/-- Witness for the column characterizations of the range theorem, at the
tokens with rendered texts "foo" and "a\nbc". -/
theorem token_and_node_ranges_witness :
    (('\n' ∉ (['f', 'o', 'o'] : List Char)) ∧
      (Token.mk .Identifier ['f', 'o', 'o']
        { line := 1, column := 4 }).getEndLoc.column = 4 + 3) ∧
    ((['a', '\n', 'b', 'c'] : List Char) = ['a'] ++ '\n' :: ['b', 'c'] ∧
      '\n' ∉ (['b', 'c'] : List Char) ∧
      (Token.mk .StringLiteral ['a', '\n', 'b', 'c']
        { line := 1, column := 1 }).getEndLoc.column = 2 + 1) := by
  refine ⟨⟨by decide, ?_⟩, ⟨rfl, by decide, ?_⟩⟩
  · exact (token_and_node_ranges
      (Token.mk .Identifier ['f', 'o', 'o'] { line := 1, column := 4 })).2.2.1
      (by decide)
  · exact (token_and_node_ranges
      (Token.mk .StringLiteral ['a', '\n', 'b', 'c']
        { line := 1, column := 1 })).2.2.2.1 ['a'] ['b', 'c'] rfl (by decide)

/-- C9: `parsePattern` on a stream whose next token is not an identifier
throws an `UnexpectedTokenDiagnostic` carrying the offending token and the
expected set consisting of `Identifier`, with the stream state unchanged
(only a peek happened before the throw); on an identifier it consumes
exactly that token and returns a `BindPattern` wrapping it. -/
theorem parsePattern_spec (ts : Tokens) :
    ((peekT ts).kind ≠ .Identifier →
      parsePattern ts =
        .err { actual := peekT ts, expected := [.Identifier] } ts) ∧
    ((peekT ts).kind = .Identifier →
      parsePattern ts = .ok (.bind (peekT ts)) ts.tail) := by
  constructor <;> intro h <;> simp [parsePattern, h]

/-- Witness for the pattern parser theorem at a colon token and at an
identifier token. -/
theorem parsePattern_spec_witness :
    ((peekT [Token.mk .Colon [':'] { line := 1, column := 1 }]).kind ≠
        .Identifier ∧
      parsePattern [Token.mk .Colon [':'] { line := 1, column := 1 }] =
        .err { actual := Token.mk .Colon [':'] { line := 1, column := 1 },
               expected := [.Identifier] }
          [Token.mk .Colon [':'] { line := 1, column := 1 }]) ∧
    ((peekT [Token.mk .Identifier ['x'] { line := 1, column := 1 }]).kind =
        .Identifier ∧
      parsePattern [Token.mk .Identifier ['x'] { line := 1, column := 1 }] =
        .ok (.bind (Token.mk .Identifier ['x'] { line := 1, column := 1 })) []) := by
  exact ⟨⟨by decide, (parsePattern_spec _).1 (by decide)⟩,
    ⟨by decide, (parsePattern_spec _).2 (by decide)⟩⟩

/-- C3: the diagnostic comparator of main.cc is not a strict weak ordering
and does not restrict the column comparison to equal lines: for primary
nodes at (1,5) and (2,3) it reports each one as strictly preceding the
other (1 < 2 on lines in one direction, 3 < 5 on columns in the other), so
sortedness of the final output by (line, column) is not guaranteed. -/
theorem diagNodeLT_not_strict_weak_order :
    diagNodeLT (some (1, 5)) (some (2, 3)) = true ∧
    diagNodeLT (some (2, 3)) (some (1, 5)) = true := by decide

/-- C2 (counterexample): with two arguments, a successful parse and one
error-severity diagnostic, the driver exits 0, not 1 as the claim states. -/
theorem mainRun_error_diag_exits_zero :
    (mainRun id 2 (some ())
      [{ severity := .error, node := some (1, 1) }]).2 = 0 ∧
    (mainRun id 2 (some ())
      [{ severity := .error, node := some (1, 1) }]).2 ≠ 1 := by decide

/-- C2 (amended): the driver exits 0 exactly when at least two arguments
were given and the parser returned a source file — regardless of the
diagnostics, including error-severity ones — and exits 1 otherwise; when
it exits 0 the (sorted) diagnostics are handed to the printer before the
exit. -/
theorem mainRun_exit_spec {α : Type} (sortImpl : List MDiag → List MDiag)
    (argc : Nat) (sf : Option α) (diags : List MDiag) :
    ((mainRun sortImpl argc sf diags).2 = 0 ↔ 2 ≤ argc ∧ sf.isSome) ∧
    ((mainRun sortImpl argc sf diags).2 = 1 ↔ ¬(2 ≤ argc ∧ sf.isSome)) ∧
    (2 ≤ argc → sf.isSome →
      (mainRun sortImpl argc sf diags).1 = sortImpl diags) := by
  by_cases h : argc < 2
  · cases sf <;> simp [mainRun, h] <;> omega
  · cases sf <;> simp [mainRun, h] <;> omega

/-- Witness for the amended driver theorem: two arguments, a parse result
and a warning diagnostic reach the printer with exit code 0. -/
theorem mainRun_exit_spec_witness :
    (2 ≤ 2 ∧ (Option.some ()).isSome = true) ∧
    (mainRun id 2 (some ()) [{ severity := .warning, node := none }]).1 =
      id [{ severity := .warning, node := none }] := by
  refine ⟨⟨by decide, by decide⟩, ?_⟩
  exact (mainRun_exit_spec id 2 (some ())
    [{ severity := .warning, node := none }]).2.2 (by decide) (by decide)

/-- C1 (counterexample): on the token stream `Colon LineFoldEnd` the parse
of the whole source file aborts with the thrown
`UnexpectedTokenDiagnostic` (stream state still at the offending token):
the parser does not record the diagnostic and resume past the next
`LineFoldEnd` as the claim states. -/
theorem parser_no_recovery_counterexample :
    parseSourceFileF 2
      [Token.mk .Colon [':'] { line := 1, column := 1 },
       Token.mk .LineFoldEnd [] { line := 1, column := 2 }] =
    some (.err
      { actual := Token.mk .Colon [':'] { line := 1, column := 1 },
        expected := [.Identifier, .IntegerLiteral] }
      [Token.mk .Colon [':'] { line := 1, column := 1 },
       Token.mk .LineFoldEnd [] { line := 1, column := 2 }]) := by
  rfl

/-- C1 (amended): when the next token matches no expected kind the parser
throws a single `UnexpectedTokenDiagnostic` carrying the offending token
and the expected kinds written at the throw site, aborting the parse by
control-flow transfer with the stream left where the throw happened; there
is no resynchronization to the next `LineFoldEnd` (here at the expression
entry point, whose thrown expected set is `Identifier, IntegerLiteral` as
written in the source). -/
theorem parseExpression_throw_spec (ts : Tokens)
    (h1 : (peekT ts).kind ≠ .Identifier)
    (h2 : (peekT ts).kind ≠ .IntegerLiteral)
    (h3 : (peekT ts).kind ≠ .StringLiteral) :
    parseExpression ts =
      .err { actual := peekT ts, expected := [.Identifier, .IntegerLiteral] }
        ts := by
  cases hk : (peekT ts).kind <;> simp_all [parseExpression]

/-- Witness for the throw theorem at a tilde token. -/
theorem parseExpression_throw_spec_witness :
    ((peekT [Token.mk .Tilde ['~'] { line := 1, column := 1 }]).kind ≠
        .Identifier ∧
      (peekT [Token.mk .Tilde ['~'] { line := 1, column := 1 }]).kind ≠
        .IntegerLiteral ∧
      (peekT [Token.mk .Tilde ['~'] { line := 1, column := 1 }]).kind ≠
        .StringLiteral) ∧
    parseExpression [Token.mk .Tilde ['~'] { line := 1, column := 1 }] =
      .err { actual := Token.mk .Tilde ['~'] { line := 1, column := 1 },
             expected := [.Identifier, .IntegerLiteral] }
        [Token.mk .Tilde ['~'] { line := 1, column := 1 }] := by
  refine ⟨⟨by decide, by decide, by decide⟩, ?_⟩
  exact parseExpression_throw_spec _ (by decide) (by decide) (by decide)

/-- C4: `parseQualifiedName` evaluated on the stream for `a . b` followed
by a `LineFoldEnd` stops at the `Dot` (the loop breaks when the peeked
token IS a `Dot`), returning just `a` with an empty module path and the
`Dot` unconsumed; and on a single identifier followed by a `LineFoldEnd`
it consumes the `LineFoldEnd` as if it were a path separator and throws
on the token after it. -/
theorem parseQualifiedName_inverted_dot :
    parseQualifiedName
      [Token.mk .Identifier ['a'] { line := 1, column := 1 },
       Token.mk .Dot ['.'] { line := 1, column := 2 },
       Token.mk .Identifier ['b'] { line := 1, column := 3 },
       Token.mk .LineFoldEnd [] { line := 1, column := 4 }] =
      .ok { modulePath := [],
            name := Token.mk .Identifier ['a'] { line := 1, column := 1 } }
        [Token.mk .Dot ['.'] { line := 1, column := 2 },
         Token.mk .Identifier ['b'] { line := 1, column := 3 },
         Token.mk .LineFoldEnd [] { line := 1, column := 4 }] ∧
    parseQualifiedName
      [Token.mk .Identifier ['x'] { line := 1, column := 1 },
       Token.mk .LineFoldEnd [] { line := 1, column := 2 }] =
      .err { actual := eofToken, expected := [.Identifier] } [] := by
  constructor <;>
    simp [parseQualifiedName, parseQualifiedNameLoop, peekT, eofToken]

theorem populate_eq_refsCtx (resolve : Nat → Nat) (x : BNode)
    (decl : Option Nat) :
    populate resolve x decl = (refsCtx x decl).flatMap (refEdges resolve) := by
  induction x, decl using refsCtx.induct with
  | case1 decl els ih =>
    simp only [populate, refsCtx, List.flatMap_assoc]
    exact List.flatMap_congr (fun e _ => ih e)
  | case2 decl parts ih =>
    simp only [populate, refsCtx, List.flatMap_assoc]
    exact List.flatMap_congr (fun p _ =>
      List.flatMap_congr (fun e _ => ih p e))
  | case3 decl i => simp [populate, refsCtx]
  | case4 decl i els ih =>
    simp only [populate, refsCtx, List.flatMap_assoc]
    exact List.flatMap_congr (fun e _ => ih e)
  | case5 decl i e ih =>
    simp only [populate, refsCtx]
    exact ih
  | case6 decl => simp [populate, refsCtx]
  | case7 decl f args ihf iha =>
    simp only [populate, refsCtx, List.flatMap_append, List.flatMap_assoc]
    rw [ihf]
    exact congrArg _ (List.flatMap_congr (fun a _ => iha a))
  | case8 decl r =>
    cases decl <;> simp [populate, refsCtx, refEdges]

theorem mem_refEdges_fst (resolve : Nat → Nat) (d r : Nat)
    (cr : Option Nat × Nat) :
    (NodeRef.decl d, NodeRef.ref r) ∈ refEdges resolve cr ↔
      cr = (some d, r) := by
  obtain ⟨c, rr⟩ := cr
  cases c <;> simp [refEdges, Prod.ext_iff, eq_comm]

theorem mem_refEdges_snd (resolve : Nat → Nat) (r d2 : Nat)
    (cr : Option Nat × Nat) :
    (NodeRef.ref r, NodeRef.decl d2) ∈ refEdges resolve cr ↔
      (cr.2 = r ∧ resolve r = d2) := by
  obtain ⟨c, rr⟩ := cr
  cases c <;>
    simp only [refEdges, List.mem_append, List.mem_singleton,
      List.mem_cons, List.not_mem_nil, or_false, false_or,
      Prod.mk.injEq, NodeRef.ref.injEq, NodeRef.decl.injEq] <;>
    constructor
  · rintro ⟨h1, h2⟩
    subst h1
    exact ⟨rfl, h2.symm⟩
  · rintro ⟨h1, h2⟩
    subst h1
    exact ⟨rfl, h2.symm⟩
  · rintro (⟨h1, h2⟩ | ⟨h1, h2⟩)
    · cases h1
    · subst h1
      exact ⟨rfl, h2.symm⟩
  · rintro ⟨h1, h2⟩
    subst h1
    exact Or.inr ⟨rfl, h2.symm⟩

/-- C8: in the graph built by `IPRGraph::populate`, declaration d2 is
reachable from declaration d1 (through the two edges contributed by a
reference) exactly when the body of d1 directly contains a reference
expression that the scope lookup resolves to d2; and every reference R in
the body of d1 resolving to d2 contributes the edges (d1, R) and (R, d2). -/
theorem iprgraph_dependency_edges (resolve : Nat → Nat) (x : BNode)
    (d1 r d2 : Nat) :
    (((NodeRef.decl d1, NodeRef.ref r) ∈ populate resolve x none ∧
      (NodeRef.ref r, NodeRef.decl d2) ∈ populate resolve x none) ↔
      ((some d1, r) ∈ refsCtx x none ∧ resolve r = d2)) ∧
    ((some d1, r) ∈ refsCtx x none →
      (NodeRef.decl d1, NodeRef.ref r) ∈ populate resolve x none ∧
      (NodeRef.ref r, NodeRef.decl (resolve r)) ∈ populate resolve x none) := by
  rw [populate_eq_refsCtx]
  constructor
  · constructor
    · rintro ⟨h1, h2⟩
      rw [List.mem_flatMap] at h1 h2
      obtain ⟨cr1, hm1, he1⟩ := h1
      rw [mem_refEdges_fst] at he1
      subst he1
      obtain ⟨cr2, hm2, he2⟩ := h2
      rw [mem_refEdges_snd] at he2
      exact ⟨hm1, he2.2⟩
    · rintro ⟨hm, hres⟩
      exact ⟨List.mem_flatMap.mpr
          ⟨(some d1, r), hm, (mem_refEdges_fst resolve d1 r _).mpr rfl⟩,
        List.mem_flatMap.mpr
          ⟨(some d1, r), hm, (mem_refEdges_snd resolve r d2 _).mpr ⟨rfl, hres⟩⟩⟩
  · intro hm
    exact ⟨List.mem_flatMap.mpr
        ⟨(some d1, r), hm, (mem_refEdges_fst resolve d1 r _).mpr rfl⟩,
      List.mem_flatMap.mpr
        ⟨(some d1, r), hm,
          (mem_refEdges_snd resolve r (resolve r) _).mpr ⟨rfl, rfl⟩⟩⟩

/-- Witness for the dependency graph theorem on the tree of a single let
declaration (identity 0) whose expression body is one reference (identity
7) resolving to declaration 5. -/
theorem iprgraph_dependency_edges_witness :
    ((some 0, 7) ∈
        refsCtx (BNode.letDecl 0 (some (.exprBody (.refExpr 7)))) none) ∧
    ((NodeRef.decl 0, NodeRef.ref 7) ∈
        populate (fun _ => 5)
          (BNode.letDecl 0 (some (.exprBody (.refExpr 7)))) none ∧
      (NodeRef.ref 7, NodeRef.decl 5) ∈
        populate (fun _ => 5)
          (BNode.letDecl 0 (some (.exprBody (.refExpr 7)))) none) := by
  have hm : (some 0, 7) ∈
      refsCtx (BNode.letDecl 0 (some (.exprBody (.refExpr 7)))) none := by
    simp [refsCtx]
  exact ⟨hm, (iprgraph_dependency_edges (fun _ => 5)
    (BNode.letDecl 0 (some (.exprBody (.refExpr 7)))) 0 7 5).2 hm⟩

theorem punctuateGo_blockEnd_count (ls : List RawLine) :
    ∀ (stack : List Nat) (started pending : Bool),
    (∀ l ∈ ls, NodeKind.BlockStart ∉ l.toks ∧ NodeKind.BlockEnd ∉ l.toks) →
    (punctuateGo stack started pending ls).count NodeKind.BlockEnd =
      (punctuateGo stack started pending ls).count NodeKind.BlockStart +
        stack.length := by
  induction ls with
  | nil =>
    intro stack started pending _
    cases started <;>
      simp [punctuateGo, List.count_append, List.count_replicate,
        List.count_cons, List.count_nil]
  | cons l rest ih =>
    intro stack started pending h
    obtain ⟨hbs, hbe⟩ := h l (List.mem_cons_self l rest)
    have hbs0 : l.toks.count NodeKind.BlockStart = 0 :=
      List.count_eq_zero.mpr hbs
    have hbe0 : l.toks.count NodeKind.BlockEnd = 0 :=
      List.count_eq_zero.mpr hbe
    have hr : ∀ l2 ∈ rest,
        NodeKind.BlockStart ∉ l2.toks ∧ NodeKind.BlockEnd ∉ l2.toks :=
      fun l2 h2 => h l2 (List.mem_cons_of_mem l h2)
    by_cases h1 : stack.headD 1 < l.column
    · cases pending with
      | true =>
        have hrec := ih (l.column :: stack) true (layoutPending l) hr
        simp only [punctuateGo, h1, if_true, List.count_cons,
          List.count_append, hbs0, hbe0] at hrec ⊢
        simp only [List.length_cons] at hrec
        simp
        omega
      | false =>
        have hrec := ih stack true (layoutPending l) hr
        simp only [punctuateGo, h1, if_true, List.count_append, hbs0,
          hbe0] at hrec ⊢
        simp
        omega
    · by_cases h3 : l.column = stack.headD 1
      · have hrec := ih stack true (layoutPending l) hr
        cases started <;>
          simp only [punctuateGo, h1, h3, if_true, if_false, ite_true,
            ite_false, List.count_append, List.count_cons, List.count_nil,
            hbs0, hbe0] at hrec ⊢ <;>
          simp <;> omega
      · have hrec := ih (stack.dropWhile (fun x => l.column < x)) true
          (layoutPending l) hr
        have hlen : (stack.dropWhile (fun x => l.column < x)).length ≤
            stack.length := (List.dropWhile_sublist _).length_le
        simp only [punctuateGo, h1, h3, if_false, List.count_append,
          List.count_cons, List.count_replicate, hbs0, hbe0] at hrec ⊢
        simp
        omega

theorem punctuateGo_lfe_count (ls : List RawLine) :
    ∀ (stack : List Nat) (started pending : Bool),
    (∀ l ∈ ls, NodeKind.LineFoldEnd ∉ l.toks) →
    (punctuateGo stack started pending ls).count NodeKind.LineFoldEnd =
      lineFoldCount stack started pending ls := by
  induction ls with
  | nil =>
    intro stack started pending _
    cases started <;>
      simp [punctuateGo, lineFoldCount, List.count_append,
        List.count_replicate, List.count_cons, List.count_nil]
  | cons l rest ih =>
    intro stack started pending h
    have hlf0 : l.toks.count NodeKind.LineFoldEnd = 0 :=
      List.count_eq_zero.mpr (h l (List.mem_cons_self l rest))
    have hr : ∀ l2 ∈ rest, NodeKind.LineFoldEnd ∉ l2.toks :=
      fun l2 h2 => h l2 (List.mem_cons_of_mem l h2)
    by_cases h1 : stack.headD 1 < l.column
    · cases pending with
      | true =>
        have hrec := ih (l.column :: stack) true (layoutPending l) hr
        simp only [punctuateGo, lineFoldCount, h1, if_true,
          List.count_cons, List.count_append, hlf0] at hrec ⊢
        simp
        omega
      | false =>
        have hrec := ih stack true (layoutPending l) hr
        simp only [punctuateGo, lineFoldCount, h1, if_true,
          List.count_append, hlf0] at hrec ⊢
        simp
        omega
    · by_cases h3 : l.column = stack.headD 1
      · have hrec := ih stack true (layoutPending l) hr
        cases started <;>
          simp only [punctuateGo, lineFoldCount, h1, h3, List.count_append,
            List.count_cons, List.count_nil, hlf0] at hrec ⊢ <;>
          simp <;> omega
      · have hrec := ih (stack.dropWhile (fun x => l.column < x)) true
          (layoutPending l) hr
        simp only [punctuateGo, lineFoldCount, h1, h3, List.count_append,
          List.count_cons, hlf0] at hrec ⊢
        simp [List.count_replicate]
        omega

/-- C6: the token stream produced by the layout filter contains equally
many `BlockStart` and `BlockEnd` tokens, and it contains exactly one
`LineFoldEnd` per logical line of the input (a line indented beyond the
expected block column continues the current line fold, every other line
starts a new one); raw lines contain no synthetic tokens. -/
theorem punctuate_layout_invariants (ls : List RawLine)
    (h : ∀ l ∈ ls, NodeKind.BlockStart ∉ l.toks ∧
      NodeKind.BlockEnd ∉ l.toks ∧ NodeKind.LineFoldEnd ∉ l.toks) :
    (punctuate ls).count NodeKind.BlockStart =
      (punctuate ls).count NodeKind.BlockEnd ∧
    (punctuate ls).count NodeKind.LineFoldEnd =
      lineFoldCount [] false false ls := by
  constructor
  · have := punctuateGo_blockEnd_count ls [] false false
      (fun l hl => ⟨(h l hl).1, (h l hl).2.1⟩)
    simp only [List.length_nil, Nat.add_zero] at this
    exact (punctuate.eq_1 ls ▸ this.symm)
  · exact punctuateGo_lfe_count ls [] false false
      (fun l hl => (h l hl).2.2)

/-- Witness for the layout invariants on a three-line input: a let header
opening a block, an indented body line, and a dedented following line. -/
theorem punctuate_layout_invariants_witness :
    (∀ l ∈ [RawLine.mk 1 [.LetKeyword, .Identifier, .Equals],
            RawLine.mk 3 [.IntegerLiteral],
            RawLine.mk 1 [.Identifier]],
      NodeKind.BlockStart ∉ l.toks ∧ NodeKind.BlockEnd ∉ l.toks ∧
        NodeKind.LineFoldEnd ∉ l.toks) ∧
    ((punctuate [RawLine.mk 1 [.LetKeyword, .Identifier, .Equals],
                 RawLine.mk 3 [.IntegerLiteral],
                 RawLine.mk 1 [.Identifier]]).count NodeKind.BlockStart =
      (punctuate [RawLine.mk 1 [.LetKeyword, .Identifier, .Equals],
                  RawLine.mk 3 [.IntegerLiteral],
                  RawLine.mk 1 [.Identifier]]).count NodeKind.BlockEnd ∧
     (punctuate [RawLine.mk 1 [.LetKeyword, .Identifier, .Equals],
                 RawLine.mk 3 [.IntegerLiteral],
                 RawLine.mk 1 [.Identifier]]).count NodeKind.LineFoldEnd =
      lineFoldCount [] false false
        [RawLine.mk 1 [.LetKeyword, .Identifier, .Equals],
         RawLine.mk 3 [.IntegerLiteral],
         RawLine.mk 1 [.Identifier]]) := by
  refine ⟨by decide, ?_⟩
  exact punctuate_layout_invariants
    [RawLine.mk 1 [.LetKeyword, .Identifier, .Equals],
     RawLine.mk 3 [.IntegerLiteral],
     RawLine.mk 1 [.Identifier]] (by decide)

theorem parseExpression_exprKind (t : Token) (rest : Tokens)
    (h : exprKindTok t) :
    parseExpression (t :: rest) = .ok (mkExprNode t) rest := by
  rcases h with h | h | h <;> simp [parseExpression, peekT, mkExprNode, h]

theorem parseExpressionStatement_shape (t lfe : Token) (rest : Tokens)
    (h : exprKindTok t) (hl : lfe.kind = .LineFoldEnd) :
    parseExpressionStatement (t :: lfe :: rest) =
      .ok { expr := mkExprNode t } rest := by
  simp [parseExpressionStatement, parseExpression_exprKind t (lfe :: rest) h,
    expectTok, peekT, hl]

theorem parseParams_shape (paramToks : List Token) (stopT : Token)
    (rest : Tokens) (hp : ∀ t ∈ paramToks, t.kind = .Identifier)
    (hstop : stopT.kind = .LineFoldEnd ∨ stopT.kind = .BlockStart ∨
      stopT.kind = .Equals ∨ stopT.kind = .Colon) :
    parseParams (paramToks ++ stopT :: rest) =
      .ok (paramToks.map fun t =>
        { pattern := Pattern.bind t, typeAssert := none }) (stopT :: rest) := by
  induction paramToks with
  | nil =>
    rcases hstop with h | h | h | h <;> simp [parseParams, peekT, h]
  | cons t ptoks ih =>
    have ht := hp t (List.mem_cons_self t ptoks)
    have hrec := ih (fun t2 h2 => hp t2 (List.mem_cons_of_mem t h2))
    rw [parseParams.eq_def]
    simp only [List.cons_append, peekT, List.headD_cons]
    rw [ht]
    split
    · rename_i heq
      exact absurd heq (by decide)
    · rename_i heq
      exact absurd heq (by decide)
    · rename_i heq
      exact absurd heq (by decide)
    · rename_i heq
      exact absurd heq (by decide)
    · split
      · rename_i p rest1 hok
        simp only [parsePattern, peekT, List.headD_cons, ht, if_pos,
          List.tail_cons] at hok
        injection hok with h1 h2
        subst h1 h2
        rw [hrec]
        rfl
      · rename_i d rest1 herr
        simp only [parsePattern, peekT, List.headD_cons, ht, if_pos,
          List.tail_cons] at herr
        cases herr

theorem parseBlockElements_shape (stmts : List (Token × Token)) (beT : Token)
    (rest : Tokens) :
    ∀ f : Nat, beT.kind = .BlockEnd →
    (∀ s ∈ stmts, exprKindTok s.1 ∧ s.2.kind = .LineFoldEnd) →
    stmts.length + 1 ≤ f →
    parseBlockElementsF f ((stmts.flatMap fun s => [s.1, s.2]) ++ beT :: rest) =
      some (.ok (stmts.map fun s => .exprStmt { expr := mkExprNode s.1 })
        (beT :: rest)) := by
  induction stmts with
  | nil =>
    intro f hbe _ hf
    obtain ⟨f2, rfl⟩ : ∃ f2, f = f2 + 1 := ⟨f - 1, by omega⟩
    simp [parseBlockElementsF, peekT, hbe]
  | cons s ss ih =>
    intro f hbe hst hf
    obtain ⟨f2, rfl⟩ : ∃ f2, f = f2 + 1 := ⟨f - 1, by omega⟩
    obtain ⟨f3, hf2⟩ : ∃ f3, f2 = f3 + 1 :=
      ⟨f2 - 1, by simp at hf; omega⟩
    obtain ⟨hs1, hs2⟩ := hst s (List.mem_cons_self s ss)
    have hrec := ih f2 hbe (fun s2 h2 => hst s2 (List.mem_cons_of_mem s h2))
      (by simp at hf ⊢; omega)
    have hnotBE : s.1.kind ≠ .BlockEnd := by
      rcases hs1 with h | h | h <;> simp [h]
    have hnotPub : s.1.kind ≠ .PubKeyword := by
      rcases hs1 with h | h | h <;> simp [h]
    have hnotMut : s.1.kind ≠ .MutKeyword := by
      rcases hs1 with h | h | h <;> simp [h]
    have hnotLet : s.1.kind ≠ .LetKeyword := by
      rcases hs1 with h | h | h <;> simp [h]
    have hpam : peekAfterModifiers
        (s.1 :: s.2 :: ((ss.flatMap fun s => [s.1, s.2]) ++ beT :: rest)) =
        s.1 := by
      rw [peekAfterModifiers]
      rcases hs1 with h | h | h <;> rw [h]
    have hlbe : parseLetBodyElementF f2
        (s.1 :: s.2 :: ((ss.flatMap fun s => [s.1, s.2]) ++ beT :: rest)) =
        some (.ok (.exprStmt { expr := mkExprNode s.1 })
          ((ss.flatMap fun s => [s.1, s.2]) ++ beT :: rest)) := by
      rw [hf2, parseLetBodyElementF, hpam, if_neg hnotLet,
        parseExpressionStatement_shape s.1 s.2 _ hs1 hs2]
    rw [parseBlockElementsF]
    simp only [List.flatMap_cons, List.cons_append, List.nil_append,
      List.append_assoc, peekT, List.headD_cons]
    rw [if_neg hnotBE]
    simp only [hlbe, hrec, List.map_cons]

/-- C5: `parseLetDeclaration` accepts an optional `pub`, `let`, an optional
`mut`, one pattern, parameters up to a `Colon`/`Equals`/`BlockStart`/
`LineFoldEnd` token, and an optional body that is `=` followed by an
expression or a `BlockStart`/`BlockEnd` block of elements, terminated by
exactly one `LineFoldEnd`, and stores the components in order; however,
evaluated on the token stream of the repository's own test input
`let a : Int = "foo"`, the `: type` annotation path throws (the qualified
name loop treats `=` as a path separator), so the annotated form the claim
also covers fails on the code. -/
theorem parseLetDeclaration_shape_and_annotated_failure :
    (∀ (pubUsed mutUsed : Bool) (pubT mutT letT patT lfeT : Token)
        (paramToks : List Token) (body : LetBodySpec) (rest : Tokens)
        (f : Nat),
      pubT.kind = .PubKeyword →
      mutT.kind = .MutKeyword →
      letT.kind = .LetKeyword →
      patT.kind = .Identifier →
      (∀ t ∈ paramToks, t.kind = .Identifier) →
      lfeT.kind = .LineFoldEnd →
      body.wf →
      body.fuelNeed + 1 ≤ f →
      parseLetDeclarationF f
          ((if pubUsed then [pubT] else []) ++ letT ::
            ((if mutUsed then [mutT] else []) ++ patT ::
              (paramToks ++ (body.render ++ lfeT :: rest)))) =
        some (.ok (.mk (if pubUsed then some pubT else none) letT
          (if mutUsed then some mutT else none) (.bind patT)
          (paramToks.map fun t =>
            { pattern := Pattern.bind t, typeAssert := none })
          none body.node) rest)) ∧
    parseLetDeclarationF 1
        [Token.mk .LetKeyword ['l', 'e', 't'] { line := 1, column := 1 },
         Token.mk .Identifier ['a'] { line := 1, column := 5 },
         Token.mk .Colon [':'] { line := 1, column := 6 },
         Token.mk .Identifier ['I', 'n', 't'] { line := 1, column := 8 },
         Token.mk .Equals ['='] { line := 1, column := 12 },
         Token.mk .StringLiteral ['f', 'o', 'o'] { line := 1, column := 14 },
         Token.mk .LineFoldEnd [] { line := 1, column := 19 }] =
      some (.err
        { actual :=
            Token.mk .StringLiteral ['f', 'o', 'o'] { line := 1, column := 14 },
          expected := [.Identifier] }
        [Token.mk .LineFoldEnd [] { line := 1, column := 19 }]) := by
  constructor
  · intro pubUsed mutUsed pubT mutT letT patT lfeT paramToks body rest f hp
      hm hlet hpat hparams hlfe hwf hfuel
    obtain ⟨f2, rfl⟩ : ∃ f2, f = f2 + 1 := ⟨f - 1, by omega⟩
    rcases body with _ | ⟨eqT, exprT⟩ | ⟨bsT, stmts, beT⟩
    · have hpp := parseParams_shape paramToks lfeT rest hparams (Or.inl hlfe)
      cases pubUsed <;> cases mutUsed <;>
        (rw [parseLetDeclarationF]
         simp [LetBodySpec.render, LetBodySpec.node, peekT, hp, hm, hlet,
           hpat, hlfe, parsePattern, expectTok, hpp])
    · obtain ⟨heq, hek⟩ := hwf
      have hpp := parseParams_shape paramToks eqT (exprT :: lfeT :: rest)
        hparams (Or.inr (Or.inr (Or.inl heq)))
      have hpe := parseExpression_exprKind exprT (lfeT :: rest) hek
      cases pubUsed <;> cases mutUsed <;>
        (rw [parseLetDeclarationF]
         simp [LetBodySpec.render, LetBodySpec.node, peekT, hp, hm, hlet,
           hpat, hlfe, heq, parsePattern, expectTok, hpp, hpe])
    · obtain ⟨hbs, hbe, hstmts⟩ := hwf
      have hpp := parseParams_shape paramToks bsT
        ((stmts.flatMap fun s => [s.1, s.2]) ++ beT :: lfeT :: rest)
        hparams (Or.inr (Or.inl hbs))
      have hpb := parseBlockElements_shape stmts beT (lfeT :: rest) f2 hbe
        hstmts (by simp [LetBodySpec.fuelNeed] at hfuel; omega)
      cases pubUsed <;> cases mutUsed <;>
        (rw [parseLetDeclarationF]
         simp [LetBodySpec.render, LetBodySpec.node, peekT, hp, hm, hlet,
           hpat, hlfe, hbs, parsePattern, expectTok, hpp, hpb])
  · simp [parseLetDeclarationF, parsePattern, parseParams,
      parseTypeExpression, parseQualifiedName, parseQualifiedNameLoop,
      peekT, expectTok, eofToken]

/-- Witness for the let declaration shape theorem: `pub let mut f x` with a
one-statement block body, parsed with fuel 3. -/
theorem parseLetDeclaration_shape_witness :
    ((Token.mk .PubKeyword ['p', 'u', 'b'] { line := 1, column := 1 }).kind =
        NodeKind.PubKeyword ∧
      (Token.mk .MutKeyword ['m', 'u', 't'] { line := 1, column := 9 }).kind =
        NodeKind.MutKeyword ∧
      (Token.mk .LetKeyword ['l', 'e', 't'] { line := 1, column := 5 }).kind =
        NodeKind.LetKeyword ∧
      (Token.mk .Identifier ['f'] { line := 1, column := 13 }).kind =
        NodeKind.Identifier ∧
      (∀ t ∈ [Token.mk .Identifier ['x'] { line := 1, column := 15 }],
        t.kind = NodeKind.Identifier) ∧
      (Token.mk .LineFoldEnd [] { line := 3, column := 1 }).kind =
        NodeKind.LineFoldEnd ∧
      (LetBodySpec.blockB (Token.mk .BlockStart [] { line := 2, column := 3 })
        [(Token.mk .IntegerLiteral ['1'] { line := 2, column := 3 },
          Token.mk .LineFoldEnd [] { line := 2, column := 4 })]
        (Token.mk .BlockEnd [] { line := 3, column := 1 })).wf ∧
      (LetBodySpec.blockB (Token.mk .BlockStart [] { line := 2, column := 3 })
        [(Token.mk .IntegerLiteral ['1'] { line := 2, column := 3 },
          Token.mk .LineFoldEnd [] { line := 2, column := 4 })]
        (Token.mk .BlockEnd [] { line := 3, column := 1 })).fuelNeed + 1 ≤ 3) ∧
    parseLetDeclarationF 3
        ((if true then [Token.mk .PubKeyword ['p', 'u', 'b']
            { line := 1, column := 1 }] else []) ++
          Token.mk .LetKeyword ['l', 'e', 't'] { line := 1, column := 5 } ::
            ((if true then [Token.mk .MutKeyword ['m', 'u', 't']
                { line := 1, column := 9 }] else []) ++
              Token.mk .Identifier ['f'] { line := 1, column := 13 } ::
                ([Token.mk .Identifier ['x'] { line := 1, column := 15 }] ++
                  ((LetBodySpec.blockB
                      (Token.mk .BlockStart [] { line := 2, column := 3 })
                      [(Token.mk .IntegerLiteral ['1'] { line := 2, column := 3 },
                        Token.mk .LineFoldEnd [] { line := 2, column := 4 })]
                      (Token.mk .BlockEnd [] { line := 3, column := 1 })).render ++
                    Token.mk .LineFoldEnd [] { line := 3, column := 1 } :: [])))) =
      some (.ok (.mk
        (if true then some (Token.mk .PubKeyword ['p', 'u', 'b']
          { line := 1, column := 1 }) else none)
        (Token.mk .LetKeyword ['l', 'e', 't'] { line := 1, column := 5 })
        (if true then some (Token.mk .MutKeyword ['m', 'u', 't']
          { line := 1, column := 9 }) else none)
        (.bind (Token.mk .Identifier ['f'] { line := 1, column := 13 }))
        ([Token.mk .Identifier ['x'] { line := 1, column := 15 }].map fun t =>
          { pattern := Pattern.bind t, typeAssert := none })
        none
        (LetBodySpec.blockB (Token.mk .BlockStart [] { line := 2, column := 3 })
          [(Token.mk .IntegerLiteral ['1'] { line := 2, column := 3 },
            Token.mk .LineFoldEnd [] { line := 2, column := 4 })]
          (Token.mk .BlockEnd [] { line := 3, column := 1 })).node) []) := by
  refine ⟨⟨rfl, rfl, rfl, rfl, by decide, rfl,
    by simp [LetBodySpec.wf, exprKindTok], by simp [LetBodySpec.fuelNeed]⟩, ?_⟩
  exact parseLetDeclaration_shape_and_annotated_failure.1 true true
    (Token.mk .PubKeyword ['p', 'u', 'b'] { line := 1, column := 1 })
    (Token.mk .MutKeyword ['m', 'u', 't'] { line := 1, column := 9 })
    (Token.mk .LetKeyword ['l', 'e', 't'] { line := 1, column := 5 })
    (Token.mk .Identifier ['f'] { line := 1, column := 13 })
    (Token.mk .LineFoldEnd [] { line := 3, column := 1 })
    [Token.mk .Identifier ['x'] { line := 1, column := 15 }]
    (LetBodySpec.blockB (Token.mk .BlockStart [] { line := 2, column := 3 })
      [(Token.mk .IntegerLiteral ['1'] { line := 2, column := 3 },
        Token.mk .LineFoldEnd [] { line := 2, column := 4 })]
      (Token.mk .BlockEnd [] { line := 3, column := 1 }))
    [] 3 rfl rfl rfl rfl (by decide) rfl
    (by simp [LetBodySpec.wf, exprKindTok]) (by simp [LetBodySpec.fuelNeed])

end Bolt
